import Mathlib

/-!
Shallow embedding of the `behavior_tree` Rust crate (src/lib.rs).

Time is modelled as a `Nat` of nanoseconds: `Instant::now()` becomes an
explicit `now : Nat` parameter of `tick`, `Instant::elapsed` becomes
truncated subtraction `now - start` (the monotonic clock guarantees
`start ≤ now` in the source), and `Duration::as_millis` becomes division
by 1000000.  The mutable `&mut Option<Vec<(usize, String)>>` debug slot
becomes an `Option (List (Nat × String))` threaded through and returned.
-/

/-- Mirrors `enum Status { Success, Failure, Running }`. -/
inductive Status where
  | success
  | failure
  | running
deriving DecidableEq, Repr

/-- Mirrors `{:?}` formatting of `Status` (the `Debug` derive). -/
def statusName : Status → String
  | .success => "Success"
  | .failure => "Failure"
  | .running => "Running"

/-- The execution trace: an ordered list of (depth, name) pairs. -/
abbrev Trace := List (Nat × String)

mutual
/-- The state space of every node type in the crate: `boxed::Selector`,
`boxed::Sequence`, `referenced::Selector`, `referenced::Sequence`,
`AlwaysSuccess`, `AlwaysFailure`, `AlwaysRunning`, `Wait` (duration and
optional start, both in nanoseconds), and the `Once` decorator (optional
cached status and the wrapped child). -/
inductive BTree where
  | boxedSelector (name : String) (tasks : BTreeList)
  | boxedSequence (name : String) (tasks : BTreeList)
  | refSelector (name : String) (tasks : BTreeList)
  | refSequence (name : String) (tasks : BTreeList)
  | alwaysSuccess
  | alwaysFailure
  | alwaysRunning
  | wait (duration : Nat) (start : Option Nat)
  | once (done : Option Status) (node : BTree)

/-- A list of children, mutually inductive with `BTree` so that `tick`
is structurally recursive (mirrors `[&mut dyn Node; N]` / `[Box<dyn Node>; N]`). -/
inductive BTreeList where
  | nil
  | cons (hd : BTree) (tl : BTreeList)
end

/-- Mirrors `if let Some(ref mut debug) = debug { debug.push((depth, name)) }`. -/
def pushTrace (dbg : Option Trace) (depth : Nat) (name : String) : Option Trace :=
  match dbg with
  | none => none
  | some tr => some (tr ++ [(depth, name)])

/-- Mirrors `Duration::as_millis` on a nanosecond count. -/
def asMillis (n : Nat) : Nat := n / 1000000

/-- Mirrors `Wait::name`: remaining millis once started, full duration before. -/
def waitName (now : Nat) (duration : Nat) (start : Option Nat) : String :=
  let d := asMillis duration
  match start with
  | none => "wait " ++ toString d
  | some s =>
      let e := asMillis (now - s)
      "wait " ++ toString (if d > e then d - e else 0)

/-- Mirrors `Once::name`: reports the cached status when present. -/
def onceName (done : Option Status) : String :=
  match done with
  | some st => "once cached " ++ statusName st
  | none => "once"

mutual
/-- One tick of a node, mirroring each `Node::tick` impl in src/lib.rs:
returns the `Status`, the node's post-tick state, and the debug slot. -/
def tick (now : Nat) : BTree → Nat → Option Trace → Status × BTree × Option Trace
  | .boxedSelector n ts, depth, dbg =>
      let r := tickSelLoop now ts (depth + 1) (pushTrace dbg depth n)
      (r.1, .boxedSelector n r.2.1, r.2.2)
  | .boxedSequence n ts, depth, dbg =>
      let r := tickSeqLoop now ts (depth + 1) (pushTrace dbg depth n)
      (r.1, .boxedSequence n r.2.1, r.2.2)
  | .refSelector n ts, depth, dbg =>
      let r := tickSelLoop now ts depth dbg
      (r.1, .refSelector n r.2.1, r.2.2)
  | .refSequence n ts, depth, dbg =>
      let r := tickSeqLoop now ts depth dbg
      (r.1, .refSequence n r.2.1, r.2.2)
  | .alwaysSuccess, depth, dbg =>
      (.success, .alwaysSuccess, pushTrace dbg depth "always-success")
  | .alwaysFailure, depth, dbg =>
      (.failure, .alwaysFailure, pushTrace dbg depth "always-failure")
  | .alwaysRunning, depth, dbg =>
      (.running, .alwaysRunning, pushTrace dbg depth "always-running")
  | .wait dur start, depth, dbg =>
      let dbg := pushTrace dbg depth (waitName now dur start)
      match start with
      | none => (.running, .wait dur (some now), dbg)
      | some s =>
          if dur ≤ now - s then (.success, .wait dur (some s), dbg)
          else (.running, .wait dur (some s), dbg)
  | .once done node, depth, dbg =>
      let dbg := pushTrace dbg depth (onceName done)
      match done with
      | some st => (st, .once done node, dbg)
      | none =>
          let r := tick now node (depth + 1) dbg
          match r.1 with
          | .running => (.running, .once none r.2.1, r.2.2)
          | st => (st, .once (some st) r.2.1, r.2.2)

/-- The child loop of both `Selector::tick` impls: Success and Running
short-circuit, Failure falls through, exhaustion yields Failure. -/
def tickSelLoop (now : Nat) : BTreeList → Nat → Option Trace → Status × BTreeList × Option Trace
  | .nil, _, dbg => (.failure, .nil, dbg)
  | .cons t ts, depth, dbg =>
      let r := tick now t depth dbg
      match r.1 with
      | .success => (.success, .cons r.2.1 ts, r.2.2)
      | .running => (.running, .cons r.2.1 ts, r.2.2)
      | .failure =>
          let r2 := tickSelLoop now ts depth r.2.2
          (r2.1, .cons r.2.1 r2.2.1, r2.2.2)

/-- The child loop of both `Sequence::tick` impls: Failure and Running
short-circuit, Success falls through, exhaustion yields Success. -/
def tickSeqLoop (now : Nat) : BTreeList → Nat → Option Trace → Status × BTreeList × Option Trace
  | .nil, _, dbg => (.success, .nil, dbg)
  | .cons t ts, depth, dbg =>
      let r := tick now t depth dbg
      match r.1 with
      | .failure => (.failure, .cons r.2.1 ts, r.2.2)
      | .running => (.running, .cons r.2.1 ts, r.2.2)
      | .success =>
          let r2 := tickSeqLoop now ts depth r.2.2
          (r2.1, .cons r.2.1 r2.2.1, r2.2.2)
end

/-- Mirrors `Node::reset`: the trait supplies the no-op default body `{}`
and no impl in src/lib.rs overrides it, so reset leaves every node as is. -/
def reset (t : BTree) : BTree := t

/-- The status a node's tick produces (depth and trace slot do not
influence it, see `tick_frame`). -/
def tickStatus (now : Nat) (t : BTree) : Status := (tick now t 0 none).1

/-- The node's state after one tick (depth and trace slot do not
influence it, see `tick_frame`). -/
def tickState (now : Nat) (t : BTree) : BTree := (tick now t 0 none).2.1

/-- The statuses the children of a composite produce, in declaration order. -/
def childStatuses (now : Nat) : BTreeList → List Status
  | .nil => []
  | .cons t ts => tickStatus now t :: childStatuses now ts

/-- Replace the first `k` children by their post-tick states, leaving the
rest untouched: the effect of a composite tick that stopped after child `k`. -/
def tickFirst (now : Nat) : Nat → BTreeList → BTreeList
  | 0, ts => ts
  | _ + 1, .nil => .nil
  | k + 1, .cons t ts => .cons (tickState now t) (tickFirst now k ts)

/-- Number of children in a child list. -/
def lengthB : BTreeList → Nat
  | .nil => 0
  | .cons _ ts => 1 + lengthB ts

/-- Modelled from the spec: the Selector combinator on a list of child
statuses — first Success gives Success, first Running gives Running,
Failure is skipped, exhaustion (including the empty list) gives Failure. -/
def selSpecStatus : List Status → Status
  | [] => .failure
  | r :: rs =>
      match r with
      | .success => .success
      | .running => .running
      | .failure => selSpecStatus rs

/-- Modelled from the spec: the Sequence combinator on a list of child
statuses — first Failure gives Failure, first Running gives Running,
Success is skipped, exhaustion (including the empty list) gives Success. -/
def seqSpecStatus : List Status → Status
  | [] => .success
  | r :: rs =>
      match r with
      | .failure => .failure
      | .running => .running
      | .success => seqSpecStatus rs

/-- Modelled from the spec: how many children a Selector ticks — all up to
and including the first one whose status is not Failure. -/
def selTickedCount : List Status → Nat
  | [] => 0
  | r :: rs =>
      match r with
      | .failure => 1 + selTickedCount rs
      | _ => 1

/-- Modelled from the spec: how many children a Sequence ticks — all up to
and including the first one whose status is not Success. -/
def seqTickedCount : List Status → Nat
  | [] => 0
  | r :: rs =>
      match r with
      | .success => 1 + seqTickedCount rs
      | _ => 1

mutual
/-- Frame lemma: the status and the post-tick state of a node do not
depend on the depth argument or on the trace slot. -/
theorem tick_frame : ∀ (t : BTree) (now d d' : Nat) (dbg dbg' : Option Trace),
    (tick now t d dbg).1 = (tick now t d' dbg').1 ∧
    (tick now t d dbg).2.1 = (tick now t d' dbg').2.1
  | .boxedSelector n ts => fun now d d' dbg dbg' => by
      have h := tickSelLoop_frame ts now (d + 1) (d' + 1)
        (pushTrace dbg d n) (pushTrace dbg' d' n)
      exact ⟨h.1, congrArg (BTree.boxedSelector n) h.2⟩
  | .boxedSequence n ts => fun now d d' dbg dbg' => by
      have h := tickSeqLoop_frame ts now (d + 1) (d' + 1)
        (pushTrace dbg d n) (pushTrace dbg' d' n)
      exact ⟨h.1, congrArg (BTree.boxedSequence n) h.2⟩
  | .refSelector n ts => fun now d d' dbg dbg' => by
      have h := tickSelLoop_frame ts now d d' dbg dbg'
      exact ⟨h.1, congrArg (BTree.refSelector n) h.2⟩
  | .refSequence n ts => fun now d d' dbg dbg' => by
      have h := tickSeqLoop_frame ts now d d' dbg dbg'
      exact ⟨h.1, congrArg (BTree.refSequence n) h.2⟩
  | .alwaysSuccess => fun _ _ _ _ _ => ⟨rfl, rfl⟩
  | .alwaysFailure => fun _ _ _ _ _ => ⟨rfl, rfl⟩
  | .alwaysRunning => fun _ _ _ _ _ => ⟨rfl, rfl⟩
  | .wait dur none => fun _ _ _ _ _ => ⟨rfl, rfl⟩
  | .wait dur (some s) => fun now _ _ _ _ => by
      by_cases h : dur ≤ now - s <;> simp [tick, h]
  | .once (some st) node => fun _ _ _ _ _ => ⟨rfl, rfl⟩
  | .once none node => fun now d d' dbg dbg' => by
      have h := tick_frame node now (d + 1) (d' + 1)
        (pushTrace dbg d (onceName none)) (pushTrace dbg' d' (onceName none))
      rcases h with ⟨h1, h2⟩
      simp only [tick]
      rw [← h1]
      cases hst : (tick now node (d + 1) (pushTrace dbg d (onceName none))).1 <;>
        simp [hst, h2]

/-- Frame lemma for the Selector child loop. -/
theorem tickSelLoop_frame : ∀ (ts : BTreeList) (now d d' : Nat) (dbg dbg' : Option Trace),
    (tickSelLoop now ts d dbg).1 = (tickSelLoop now ts d' dbg').1 ∧
    (tickSelLoop now ts d dbg).2.1 = (tickSelLoop now ts d' dbg').2.1
  | .nil => fun _ _ _ _ _ => ⟨rfl, rfl⟩
  | .cons t ts => fun now d d' dbg dbg' => by
      have h := tick_frame t now d d' dbg dbg'
      rcases h with ⟨h1, h2⟩
      have hr := tickSelLoop_frame ts now d d'
        (tick now t d dbg).2.2 (tick now t d' dbg').2.2
      simp only [tickSelLoop]
      rw [← h1]
      cases hst : (tick now t d dbg).1 <;> simp [hst, h2, hr.1, hr.2]

/-- Frame lemma for the Sequence child loop. -/
theorem tickSeqLoop_frame : ∀ (ts : BTreeList) (now d d' : Nat) (dbg dbg' : Option Trace),
    (tickSeqLoop now ts d dbg).1 = (tickSeqLoop now ts d' dbg').1 ∧
    (tickSeqLoop now ts d dbg).2.1 = (tickSeqLoop now ts d' dbg').2.1
  | .nil => fun _ _ _ _ _ => ⟨rfl, rfl⟩
  | .cons t ts => fun now d d' dbg dbg' => by
      have h := tick_frame t now d d' dbg dbg'
      rcases h with ⟨h1, h2⟩
      have hr := tickSeqLoop_frame ts now d d'
        (tick now t d dbg).2.2 (tick now t d' dbg').2.2
      simp only [tickSeqLoop]
      rw [← h1]
      cases hst : (tick now t d dbg).1 <;> simp [hst, h2, hr.1, hr.2]
end

/-- The Selector child loop refines the spec combinator: its status is
`selSpecStatus` of the children's statuses, and it ticks exactly the
children up to and including the first non-Failure one. -/
theorem tickSelLoop_spec : ∀ (ts : BTreeList) (now d : Nat) (dbg : Option Trace),
    (tickSelLoop now ts d dbg).1 = selSpecStatus (childStatuses now ts) ∧
    (tickSelLoop now ts d dbg).2.1
      = tickFirst now (selTickedCount (childStatuses now ts)) ts
  | .nil => fun _ _ _ => ⟨rfl, rfl⟩
  | .cons t ts => fun now d dbg => by
      have h := tick_frame t now d 0 dbg none
      rcases h with ⟨h1, h2⟩
      have hr := tickSelLoop_spec ts now d (tick now t d dbg).2.2
      simp only [tickSelLoop, childStatuses, selSpecStatus, selTickedCount]
      rw [show tickStatus now t = (tick now t d dbg).1 from h1.symm]
      cases hst : (tick now t d dbg).1 <;>
        simp [hst, tickFirst, tickState, ← h2, hr.1, hr.2, Nat.add_comm 1]

/-- The trace entries one tick of a node appends (computed by running the
tick on an empty trace; `tick_traceOf` shows every run appends this). -/
def traceOf (now : Nat) (t : BTree) (d : Nat) : Trace :=
  ((tick now t d (some [])).2.2).getD []

/-- The trace entries one run of the Selector child loop appends. -/
def selLoopTraceOf (now : Nat) (ts : BTreeList) (d : Nat) : Trace :=
  ((tickSelLoop now ts d (some [])).2.2).getD []

/-- The trace entries one run of the Sequence child loop appends. -/
def seqLoopTraceOf (now : Nat) (ts : BTreeList) (d : Nat) : Trace :=
  ((tickSeqLoop now ts d (some [])).2.2).getD []

/-- The Sequence child loop refines the spec combinator: its status is
`seqSpecStatus` of the children's statuses, and it ticks exactly the
children up to and including the first non-Success one. -/
theorem tickSeqLoop_spec : ∀ (ts : BTreeList) (now d : Nat) (dbg : Option Trace),
    (tickSeqLoop now ts d dbg).1 = seqSpecStatus (childStatuses now ts) ∧
    (tickSeqLoop now ts d dbg).2.1
      = tickFirst now (seqTickedCount (childStatuses now ts)) ts
  | .nil => fun _ _ _ => ⟨rfl, rfl⟩
  | .cons t ts => fun now d dbg => by
      have h := tick_frame t now d 0 dbg none
      rcases h with ⟨h1, h2⟩
      have hr := tickSeqLoop_spec ts now d (tick now t d dbg).2.2
      simp only [tickSeqLoop, childStatuses, seqSpecStatus, seqTickedCount]
      rw [show tickStatus now t = (tick now t d dbg).1 from h1.symm]
      cases hst : (tick now t d dbg).1 <;>
        simp [hst, tickFirst, tickState, ← h2, hr.1, hr.2, Nat.add_comm 1]

mutual
/-- Ticking with any supplied trace appends exactly `traceOf` to it. -/
theorem tick_traceOf : ∀ (t : BTree) (now d : Nat) (tr : Trace),
    (tick now t d (some tr)).2.2 = some (tr ++ traceOf now t d)
  | .boxedSelector n ts => fun now d tr => by
      have h1 := selLoop_traceOf ts now (d + 1) (tr ++ [(d, n)])
      have h2 := selLoop_traceOf ts now (d + 1) [(d, n)]
      simp [tick, traceOf, pushTrace, h1, h2]
  | .boxedSequence n ts => fun now d tr => by
      have h1 := seqLoop_traceOf ts now (d + 1) (tr ++ [(d, n)])
      have h2 := seqLoop_traceOf ts now (d + 1) [(d, n)]
      simp [tick, traceOf, pushTrace, h1, h2]
  | .refSelector n ts => fun now d tr => by
      have h1 := selLoop_traceOf ts now d tr
      have h2 := selLoop_traceOf ts now d []
      simp [tick, traceOf, h1, h2]
  | .refSequence n ts => fun now d tr => by
      have h1 := seqLoop_traceOf ts now d tr
      have h2 := seqLoop_traceOf ts now d []
      simp [tick, traceOf, h1, h2]
  | .alwaysSuccess => fun now d tr => by simp [tick, traceOf, pushTrace]
  | .alwaysFailure => fun now d tr => by simp [tick, traceOf, pushTrace]
  | .alwaysRunning => fun now d tr => by simp [tick, traceOf, pushTrace]
  | .wait dur none => fun now d tr => by simp [tick, traceOf, pushTrace]
  | .wait dur (some s) => fun now d tr => by
      by_cases h : dur ≤ now - s <;> simp [tick, traceOf, pushTrace, h]
  | .once (some st) node => fun now d tr => by simp [tick, traceOf, pushTrace]
  | .once none node => fun now d tr => by
      have h1 := tick_traceOf node now (d + 1) (tr ++ [(d, onceName none)])
      have h2 := tick_traceOf node now (d + 1) [(d, onceName none)]
      have hfr := (tick_frame node now (d + 1) (d + 1)
        (some (tr ++ [(d, onceName none)])) (some [(d, onceName none)])).1
      simp only [tick, traceOf, pushTrace, List.nil_append]
      cases hst : (tick now node (d + 1) (some (tr ++ [(d, onceName none)]))).1 <;>
        rw [hst] at hfr <;>
        simp [hst, ← hfr, h1, h2]

/-- The Selector child loop appends exactly `selLoopTraceOf`. -/
theorem selLoop_traceOf : ∀ (ts : BTreeList) (now d : Nat) (tr : Trace),
    (tickSelLoop now ts d (some tr)).2.2 = some (tr ++ selLoopTraceOf now ts d)
  | .nil => fun now d tr => by simp [tickSelLoop, selLoopTraceOf]
  | .cons t ts => fun now d tr => by
      have h1 := tick_traceOf t now d tr
      have h0 := tick_traceOf t now d []
      have hfr := (tick_frame t now d d (some tr) (some [])).1
      have hr1 := selLoop_traceOf ts now d (tr ++ traceOf now t d)
      have hr0 := selLoop_traceOf ts now d (traceOf now t d)
      simp only [tickSelLoop, selLoopTraceOf, List.nil_append]
      cases hst : (tick now t d (some tr)).1 <;>
        rw [hst] at hfr <;>
        simp [hst, ← hfr, h1, h0, hr1, hr0]

/-- The Sequence child loop appends exactly `seqLoopTraceOf`. -/
theorem seqLoop_traceOf : ∀ (ts : BTreeList) (now d : Nat) (tr : Trace),
    (tickSeqLoop now ts d (some tr)).2.2 = some (tr ++ seqLoopTraceOf now ts d)
  | .nil => fun now d tr => by simp [tickSeqLoop, seqLoopTraceOf]
  | .cons t ts => fun now d tr => by
      have h1 := tick_traceOf t now d tr
      have h0 := tick_traceOf t now d []
      have hfr := (tick_frame t now d d (some tr) (some [])).1
      have hr1 := seqLoop_traceOf ts now d (tr ++ traceOf now t d)
      have hr0 := seqLoop_traceOf ts now d (traceOf now t d)
      simp only [tickSeqLoop, seqLoopTraceOf, List.nil_append]
      cases hst : (tick now t d (some tr)).1 <;>
        rw [hst] at hfr <;>
        simp [hst, ← hfr, h1, h0, hr1, hr0]
end

/-- Unfolding: the boxed Selector's trace is its own (depth, name) entry
followed by the child loop's entries at depth + 1. -/
theorem traceOf_boxedSelector (now d : Nat) (n : String) (ts : BTreeList) :
    traceOf now (.boxedSelector n ts) d = (d, n) :: selLoopTraceOf now ts (d + 1) := by
  have h := selLoop_traceOf ts now (d + 1) [(d, n)]
  simp [traceOf, tick, pushTrace, h]

/-- Unfolding: the boxed Sequence's trace is its own (depth, name) entry
followed by the child loop's entries at depth + 1. -/
theorem traceOf_boxedSequence (now d : Nat) (n : String) (ts : BTreeList) :
    traceOf now (.boxedSequence n ts) d = (d, n) :: seqLoopTraceOf now ts (d + 1) := by
  have h := seqLoop_traceOf ts now (d + 1) [(d, n)]
  simp [traceOf, tick, pushTrace, h]

/-- Unfolding: the referenced Selector appends no entry of its own and
runs its children at the unchanged depth. -/
theorem traceOf_refSelector (now d : Nat) (n : String) (ts : BTreeList) :
    traceOf now (.refSelector n ts) d = selLoopTraceOf now ts d := by
  have h := selLoop_traceOf ts now d []
  simp [traceOf, tick, h]

/-- Unfolding: the referenced Sequence appends no entry of its own and
runs its children at the unchanged depth. -/
theorem traceOf_refSequence (now d : Nat) (n : String) (ts : BTreeList) :
    traceOf now (.refSequence n ts) d = seqLoopTraceOf now ts d := by
  have h := seqLoop_traceOf ts now d []
  simp [traceOf, tick, h]

/-- Unfolding: an uncached Once appends its own entry, then its child's
entries at depth + 1. -/
theorem traceOf_once_none (now d : Nat) (child : BTree) :
    traceOf now (.once none child) d
      = (d, onceName none) :: traceOf now child (d + 1) := by
  have h := tick_traceOf child now (d + 1) [(d, onceName none)]
  have h0 := tick_traceOf child now (d + 1) []
  simp only [traceOf, tick, pushTrace, List.nil_append]
  cases hst : (tick now child (d + 1) (some [(d, onceName none)])).1 <;>
    simp [hst, h, h0]

/-- Unfolding: a cached Once appends exactly its own entry; its child's
subtree contributes nothing. -/
theorem traceOf_once_some (now d : Nat) (st : Status) (child : BTree) :
    traceOf now (.once (some st) child) d = [(d, onceName (some st))] := by
  simp [traceOf, tick, pushTrace]

/-- Replacing ticked children preserves the length of the child list. -/
theorem lengthB_tickFirst (now : Nat) : ∀ (k : Nat) (ts : BTreeList),
    lengthB (tickFirst now k ts) = lengthB ts
  | 0, _ => rfl
  | _ + 1, .nil => rfl
  | k + 1, .cons t ts => by simp [tickFirst, lengthB, lengthB_tickFirst now k ts]

/-- The concatenated traces of the first `k` children, each run at depth `d`. -/
def tracesOfFirst (now d : Nat) : Nat → BTreeList → Trace
  | 0, _ => []
  | _ + 1, .nil => []
  | k + 1, .cons t ts => traceOf now t d ++ tracesOfFirst now d k ts

/-- The Selector loop's trace consists of exactly the traces of the
children up to and including the first non-Failure one. -/
theorem selLoopTraceOf_spec (now : Nat) : ∀ (ts : BTreeList) (d : Nat),
    selLoopTraceOf now ts d
      = tracesOfFirst now d (selTickedCount (childStatuses now ts)) ts
  | .nil => fun d => by simp [selLoopTraceOf, tickSelLoop, childStatuses,
      selTickedCount, tracesOfFirst]
  | .cons t ts => fun d => by
      have hfr := (tick_frame t now d 0 (some []) none).1
      have h0 := tick_traceOf t now d []
      have hr := selLoop_traceOf ts now d (traceOf now t d)
      have ih := selLoopTraceOf_spec now ts d
      simp only [selLoopTraceOf, tickSelLoop, childStatuses, selTickedCount]
      rw [show tickStatus now t = (tick now t d (some [])).1 from hfr.symm]
      cases hst : (tick now t d (some [])).1 <;>
        simp [hst, h0, hr, tracesOfFirst, ← ih, selLoopTraceOf, Nat.add_comm 1]

/-- The Sequence loop's trace consists of exactly the traces of the
children up to and including the first non-Success one. -/
theorem seqLoopTraceOf_spec (now : Nat) : ∀ (ts : BTreeList) (d : Nat),
    seqLoopTraceOf now ts d
      = tracesOfFirst now d (seqTickedCount (childStatuses now ts)) ts
  | .nil => fun d => by simp [seqLoopTraceOf, tickSeqLoop, childStatuses,
      seqTickedCount, tracesOfFirst]
  | .cons t ts => fun d => by
      have hfr := (tick_frame t now d 0 (some []) none).1
      have h0 := tick_traceOf t now d []
      have hr := seqLoop_traceOf ts now d (traceOf now t d)
      have ih := seqLoopTraceOf_spec now ts d
      simp only [seqLoopTraceOf, tickSeqLoop, childStatuses, seqTickedCount]
      rw [show tickStatus now t = (tick now t d (some [])).1 from hfr.symm]
      cases hst : (tick now t d (some [])).1 <;>
        simp [hst, h0, hr, tracesOfFirst, ← ih, seqLoopTraceOf, Nat.add_comm 1]

/-- C1: Both Selector variants evaluate children in declaration order;
the first Success short-circuits to Success, the first Running to
Running, Failure is skipped, and exhaustion (including zero children)
gives Failure; exactly the children up to and including the
short-circuiting one are ticked (their states are advanced and only they
contribute trace entries). -/
theorem selector_tick_correct (now d : Nat) (n : String) (ts : BTreeList)
    (dbg : Option Trace) :
    (tick now (.boxedSelector n ts) d dbg).1 = selSpecStatus (childStatuses now ts) ∧
    (tick now (.boxedSelector n ts) d dbg).2.1
      = .boxedSelector n (tickFirst now (selTickedCount (childStatuses now ts)) ts) ∧
    (tick now (.refSelector n ts) d dbg).1 = selSpecStatus (childStatuses now ts) ∧
    (tick now (.refSelector n ts) d dbg).2.1
      = .refSelector n (tickFirst now (selTickedCount (childStatuses now ts)) ts) ∧
    selLoopTraceOf now ts d
      = tracesOfFirst now d (selTickedCount (childStatuses now ts)) ts := by
  have hb := tickSelLoop_spec ts now (d + 1) (pushTrace dbg d n)
  have hr := tickSelLoop_spec ts now d dbg
  exact ⟨hb.1, congrArg (BTree.boxedSelector n) hb.2, hr.1,
    congrArg (BTree.refSelector n) hr.2, selLoopTraceOf_spec now ts d⟩

/-- C2: Both Sequence variants evaluate children in declaration order;
the first Failure short-circuits to Failure, the first Running to
Running, Success is skipped, and exhaustion (including zero children)
gives Success; exactly the children up to and including the
short-circuiting one are ticked (their states are advanced and only they
contribute trace entries). -/
theorem sequence_tick_correct (now d : Nat) (n : String) (ts : BTreeList)
    (dbg : Option Trace) :
    (tick now (.boxedSequence n ts) d dbg).1 = seqSpecStatus (childStatuses now ts) ∧
    (tick now (.boxedSequence n ts) d dbg).2.1
      = .boxedSequence n (tickFirst now (seqTickedCount (childStatuses now ts)) ts) ∧
    (tick now (.refSequence n ts) d dbg).1 = seqSpecStatus (childStatuses now ts) ∧
    (tick now (.refSequence n ts) d dbg).2.1
      = .refSequence n (tickFirst now (seqTickedCount (childStatuses now ts)) ts) ∧
    seqLoopTraceOf now ts d
      = tracesOfFirst now d (seqTickedCount (childStatuses now ts)) ts := by
  have hb := tickSeqLoop_spec ts now (d + 1) (pushTrace dbg d n)
  have hr := tickSeqLoop_spec ts now d dbg
  exact ⟨hb.1, congrArg (BTree.boxedSequence n) hb.2, hr.1,
    congrArg (BTree.refSequence n) hr.2, seqLoopTraceOf_spec now ts d⟩

/-- C8: Ticking with the trace slot absent and with any trace slot
present yields the same Status and the same post-tick node state, for
every node and every starting state. -/
theorem trace_opt_in_no_effect (t : BTree) (now d : Nat) (tr : Trace) :
    (tick now t d (some tr)).1 = (tick now t d none).1 ∧
    (tick now t d (some tr)).2.1 = (tick now t d none).2.1 :=
  tick_frame t now d d (some tr) none

/-- C9: Composites keep no cross-tick state of their own: a tick leaves
the constructor and the name unchanged, replaces the children positionally
by their own post-tick states (same order, same length), and always starts
re-evaluating at child 0 — the head child of a non-empty composite is
ticked on every invocation. -/
theorem composite_stateless (now d : Nat) (n : String) (ts : BTreeList)
    (dbg : Option Trace) :
    (tick now (.boxedSelector n ts) d dbg).2.1
      = .boxedSelector n (tickFirst now (selTickedCount (childStatuses now ts)) ts) ∧
    (tick now (.refSelector n ts) d dbg).2.1
      = .refSelector n (tickFirst now (selTickedCount (childStatuses now ts)) ts) ∧
    (tick now (.boxedSequence n ts) d dbg).2.1
      = .boxedSequence n (tickFirst now (seqTickedCount (childStatuses now ts)) ts) ∧
    (tick now (.refSequence n ts) d dbg).2.1
      = .refSequence n (tickFirst now (seqTickedCount (childStatuses now ts)) ts) ∧
    lengthB (tickFirst now (selTickedCount (childStatuses now ts)) ts) = lengthB ts ∧
    lengthB (tickFirst now (seqTickedCount (childStatuses now ts)) ts) = lengthB ts ∧
    (∀ (t : BTree) (rest : BTreeList),
      1 ≤ selTickedCount (childStatuses now (.cons t rest)) ∧
      1 ≤ seqTickedCount (childStatuses now (.cons t rest)) ∧
      tickFirst now (selTickedCount (childStatuses now (.cons t rest))) (.cons t rest)
        = .cons (tickState now t)
            (tickFirst now (selTickedCount (childStatuses now (.cons t rest)) - 1) rest)) := by
  refine ⟨(tickSelLoop_spec ts now (d + 1) (pushTrace dbg d n)).2.symm ▸ rfl,
    congrArg (BTree.refSelector n) (tickSelLoop_spec ts now d dbg).2,
    congrArg (BTree.boxedSequence n) (tickSeqLoop_spec ts now (d + 1) (pushTrace dbg d n)).2,
    congrArg (BTree.refSequence n) (tickSeqLoop_spec ts now d dbg).2,
    lengthB_tickFirst now _ ts, lengthB_tickFirst now _ ts, ?_⟩
  intro t rest
  refine ⟨?_, ?_, ?_⟩ <;>
    cases hst : tickStatus now t <;>
      simp [childStatuses, selTickedCount, seqTickedCount, hst, tickFirst,
        Nat.add_comm 1]

/-- C4: Once its cache holds a terminal status, every tick of a Once
decorator returns the cached status and leaves the child untouched (it is
not re-invoked, and contributes no trace entries); while the cache is
empty and the child returns Running, the Once returns Running, the cache
stays empty, and the child is invoked (its state advances) on each tick. -/
theorem once_cache_invariant (now d : Nat) (dbg : Option Trace) (st : Status)
    (child : BTree) :
    tick now (.once (some st) child) d dbg
      = (st, .once (some st) child, pushTrace dbg d (onceName (some st))) ∧
    ((tick now child (d + 1) (pushTrace dbg d (onceName none))).1 = .running →
      tick now (.once none child) d dbg
        = (.running,
           .once none (tick now child (d + 1) (pushTrace dbg d (onceName none))).2.1,
           (tick now child (d + 1) (pushTrace dbg d (onceName none))).2.2)) := by
  refine ⟨rfl, fun h => ?_⟩
  simp only [tick]
  rw [h]

/-- Witness for C4 at a concrete input: an uncached Once over an
AlwaysRunning child returns Running and stays uncached. -/
theorem once_cache_invariant_witness :
    tick 3 (.once none .alwaysRunning) 0 none
      = (.running, .once none .alwaysRunning, none) :=
  (once_cache_invariant 3 0 none .success .alwaysRunning).2 rfl

/-- C7: A Wait with any duration (including 0) returns Running on its
first tick and records the current time as its start; every later tick
returns Success exactly when the elapsed time since that recorded start
reaches the duration and Running otherwise, never modifying the start. -/
theorem wait_tick_correct (now dur d s : Nat) (dbg : Option Trace) :
    tick now (.wait dur none) d dbg
      = (.running, .wait dur (some now), pushTrace dbg d (waitName now dur none)) ∧
    tick now (.wait dur (some s)) d dbg
      = ((if dur ≤ now - s then Status.success else .running), .wait dur (some s),
         pushTrace dbg d (waitName now dur (some s))) := by
  refine ⟨rfl, ?_⟩
  by_cases h : dur ≤ now - s <;> simp [tick, h]

/-- C10: With a trace slot supplied, a Once appends its own (depth, name)
entry on every tick: when cached it appends exactly one entry naming the
cached status and its child's subtree contributes nothing; when uncached
it appends its own entry followed by the child's entries at depth + 1. -/
theorem once_trace_every_tick (now d : Nat) (st : Status) (child : BTree)
    (tr : Trace) :
    (tick now (.once (some st) child) d (some tr)).2.2
      = some (tr ++ [(d, "once cached " ++ statusName st)]) ∧
    traceOf now (.once (some st) child) d = [(d, "once cached " ++ statusName st)] ∧
    traceOf now (.once none child) d = (d, "once") :: traceOf now child (d + 1) := by
  exact ⟨rfl, traceOf_once_some now d st child, traceOf_once_none now d child⟩

/-- C3 counterexample: a referenced Sequence named "root" does not append
its own (depth, name) pair and ticks its child at the unchanged depth, so
the trace of one tick is [(0, child-name)], not [(0, "root"), (1, child-name)]. -/
theorem refSequence_trace_counterexample :
    (tick 0 (.refSequence "root" (.cons .alwaysRunning .nil)) 0 (some [])).2.2
      = some [(0, "always-running")] ∧
    (tick 0 (.refSequence "root" (.cons .alwaysRunning .nil)) 0 (some [])).2.2
      ≠ some [(0, "root"), (1, "always-running")] := by
  exact ⟨rfl, by decide⟩

/-- C3 amended: the boxed composites and the Once decorator append their
own (depth, name) pair before recursing and recurse with depth + 1, while
the referenced composites append nothing and tick children at the same
depth; a single tick of a boxed Sequence named "root" over two
not-yet-started Wait children produces exactly [(0, "root"),
(1, first-leaf-name)]. -/
theorem trace_discipline_amended (now d : Nat) (n : String) (ts : BTreeList)
    (child : BTree) :
    traceOf now (.boxedSelector n ts) d = (d, n) :: selLoopTraceOf now ts (d + 1) ∧
    traceOf now (.boxedSequence n ts) d = (d, n) :: seqLoopTraceOf now ts (d + 1) ∧
    traceOf now (.once none child) d = (d, "once") :: traceOf now child (d + 1) ∧
    traceOf now (.refSelector n ts) d = selLoopTraceOf now ts d ∧
    traceOf now (.refSequence n ts) d = seqLoopTraceOf now ts d ∧
    tick now (.boxedSequence "root" (.cons (.wait 5000000 none)
        (.cons (.wait 7000000 none) .nil))) 0 (some [])
      = (.running,
         .boxedSequence "root" (.cons (.wait 5000000 (some now))
            (.cons (.wait 7000000 none) .nil)),
         some [(0, "root"), (1, "wait 5")]) :=
  ⟨traceOf_boxedSelector now d n ts, traceOf_boxedSequence now d n ts,
   traceOf_once_none now d child, traceOf_refSelector now d n ts,
   traceOf_refSequence now d n ts, rfl⟩

/-- C5 as the code behaves: `reset` on a Once is the trait's default
no-op, so it does not clear the cache — after caching Success over an
always-failing child, reset followed by a tick still returns the cached
Success and leaves the child untouched (a re-invocation would have
returned Failure and re-cached). -/
theorem once_reset_noop :
    reset (BTree.once (some .success) .alwaysFailure)
      = BTree.once (some .success) .alwaysFailure ∧
    tick 0 (reset (.once (some .success) .alwaysFailure)) 0 none
      = (.success, .once (some .success) .alwaysFailure, none) :=
  ⟨rfl, rfl⟩

/-- C6 as the code behaves: `reset` on a Wait is the trait's default
no-op, so the captured start survives — a 5 ms Wait started at time 0,
reset and ticked at time 5 ms, returns Success, whereas a pristine Wait's
first tick returns Running. -/
theorem wait_reset_noop :
    reset (BTree.wait 5000000 (some 0)) = BTree.wait 5000000 (some 0) ∧
    (tick 5000000 (reset (.wait 5000000 (some 0))) 0 none).1 = .success ∧
    (tick 5000000 (.wait 5000000 none) 0 none).1 = .running :=
  ⟨rfl, rfl, rfl⟩
